import Mathlib

/-!
Verification of the heartbeat-activity pipeline of the `sidekick` review
dashboard: clustering of coding-activity heartbeats, reviewer-facing hour
aggregation, hour synchronisation, project-root / relative-path
reconstruction, and the code-window rendering contract.

The TypeScript sources are embedded shallowly:

* JS `Date` values are embedded as their millisecond timestamps (`Int`,
  the value of `Date.prototype.getTime`).
* JS numbers that take part in division are embedded as `ℚ` (the source
  only performs exact arithmetic on them apart from IEEE rounding, which
  is abstracted away by the exact-arithmetic model).
* JS strings are embedded as Lean `String`; the string operations used by
  the sources (`split`, `trim`, `toLowerCase`, `includes`, `slice`,
  indexing) are re-implemented below on the character list so that every
  definition evaluates by kernel reduction.  `toLowerCase`/`trim` are
  modelled on ASCII, which is the alphabet the sources feed them.
* `Array.prototype.sort` is stable (ECMA-262); a stable sort keyed by a
  total order is extensionally unique, so it is embedded as a stable
  insertion sort.
-/

/-! ## JavaScript string primitives -/

/-- ASCII case folding of one character, as `String.prototype.toLowerCase`
acts on the ASCII range. -/
def charLower (c : Char) : Char :=
  if 'A' ≤ c ∧ c ≤ 'Z' then Char.ofNat (c.toNat + 32) else c

/-- `s.toLowerCase()` (ASCII model). -/
def jsToLower (s : String) : String := ⟨s.data.map charLower⟩

/-- ASCII whitespace, the fragment of the JS `trim` character class the
sources can encounter. -/
def isJsSpace (c : Char) : Bool :=
  c = ' ' ∨ c = '\t' ∨ c = '\n' ∨ c = '\r'

/-- `s.trim()` (ASCII model). -/
def jsTrim (s : String) : String :=
  ⟨((s.data.dropWhile isJsSpace).reverse.dropWhile isJsSpace).reverse⟩

/-- Core of `String.prototype.split` with a single-character-class
separator: splitting `[]` yields `[[]]`, and every separator occurrence
contributes a boundary (empty fields are kept, as in JS). -/
def splitChars (p : Char → Bool) : List Char → List (List Char)
  | [] => [[]]
  | c :: cs =>
    match splitChars p cs with
    | [] => [[]]
    | w :: ws => if p c then [] :: w :: ws else (c :: w) :: ws

/-- `s.split(re)` for a character-class regular expression `re`. -/
def jsSplit (p : Char → Bool) (s : String) : List String :=
  (splitChars p s.data).map fun l => ⟨l⟩

/-- Joining with a single-character separator (`Array.prototype.join`). -/
def joinWithChar (c : Char) : List (List Char) → List Char
  | [] => []
  | [w] => w
  | w :: w' :: ws => w ++ c :: joinWithChar c (w' :: ws)

/-- `parts.join("/")`. -/
def joinSlash (parts : List String) : String :=
  ⟨joinWithChar '/' (parts.map String.data)⟩

/-- Does `pat` occur as a leading run of `l`? (helper for `includes`). -/
def leadsWith : List Char → List Char → Bool
  | [], _ => true
  | _ :: _, [] => false
  | p :: ps, c :: cs => p = c && leadsWith ps cs

/-- Does `pat` occur contiguously anywhere in `l`? -/
def containsRun (pat : List Char) : List Char → Bool
  | [] => leadsWith pat []
  | c :: cs => leadsWith pat (c :: cs) || containsRun pat cs

/-- `s.includes(t)`. -/
def jsIncludes (s t : String) : Bool := containsRun t.data s.data

/-! ## Event model (`src/services/hackatime.ts`)

The `Heartbeat` record, with `Date` fields as millisecond timestamps and
nullable fields as `Option`. -/

structure Heartbeat where
  time : Int
  created_at : Int
  project : String
  branch : String
  category : String
  editor : String
  entity : String
  language : String
  machine : String
  operating_system : String
  type : String
  user_agent : String
  line_additions : Option Int
  line_deletions : Option Int
  lineno : Int
  lines : Int
  cursorpos : Int
  project_root_count : Int
  is_write : Option Bool
  source_type : String
  ip_address : String
deriving DecidableEq

/-- `HeartbeatCluster` of `src/services/hackatime.ts` (structurally the
same interface appears in `src/utils/heartbeatClustering.ts`). -/
structure HeartbeatCluster where
  id : String
  startTime : Int
  endTime : Int
  heartbeats : List Heartbeat
deriving DecidableEq

/-! ## Clustering (`clusterHeartbeats`)

The function appears twice in the repository, in
`src/services/hackatime.ts` (threshold `15 * 60 * 1000`) and in
`src/utils/heartbeatClustering.ts` (threshold `10 * 60 * 1000`); apart
from the threshold constant the two bodies are character-for-character
identical, so they are embedded as one threshold-parameterised body with
two instantiations. -/

/-- Stable insertion of a heartbeat into a time-sorted list (a later
element with an equal timestamp lands after earlier ones). -/
def insertByTime (x : Heartbeat) : List Heartbeat → List Heartbeat
  | [] => [x]
  | y :: ys => if x.time ≤ y.time then x :: y :: ys else y :: insertByTime x ys

/-- `[...heartbeats].sort((a, b) => a.time.getTime() - b.time.getTime())`:
stable ascending sort by `time`. -/
def sortByTime (l : List Heartbeat) : List Heartbeat :=
  l.foldr insertByTime []

/-- The `clusters.push({...})` step shared by the loop body and the final
flush: appends the current run (if non-empty) as a finished cluster. -/
def closeCluster (clusters : List HeartbeatCluster) (current : List Heartbeat) :
    List HeartbeatCluster :=
  match current with
  | [] => clusters
  | first :: rest =>
    clusters ++ [{ id := "cluster-" ++ toString clusters.length,
                   startTime := first.time,
                   endTime := (rest.getLastD first).time,
                   heartbeats := first :: rest }]

/-- The `for` loop of `clusterHeartbeats`: `lastTime` is updated to the
current element's time on every iteration, so each gap test compares
consecutive elements of the sorted list. -/
def clusterLoop (threshold : Int) (clusters : List HeartbeatCluster)
    (current : List Heartbeat) (lastTime : Int) :
    List Heartbeat → List HeartbeatCluster
  | [] => closeCluster clusters current
  | hb :: rest =>
    if hb.time - lastTime ≤ threshold then
      clusterLoop threshold clusters (current ++ [hb]) hb.time rest
    else
      clusterLoop threshold (closeCluster clusters current) [hb] hb.time rest

/-- `clusterHeartbeats`, parameterised by the gap threshold. -/
def clusterHeartbeatsWith (threshold : Int) (heartbeats : List Heartbeat) :
    List HeartbeatCluster :=
  match sortByTime heartbeats with
  | [] => []
  | h :: rest => clusterLoop threshold [] [h] h.time rest

/-- `CLUSTER_THRESHOLD_MS = 15 * 60 * 1000` of `src/services/hackatime.ts`. -/
def CLUSTER_THRESHOLD_MS : Int := 15 * 60 * 1000

/-- `clusterHeartbeats` of `src/services/hackatime.ts` (the implementation
the UI imports). -/
def clusterHeartbeats : List Heartbeat → List HeartbeatCluster :=
  clusterHeartbeatsWith CLUSTER_THRESHOLD_MS

namespace heartbeatClustering

/-- `CLUSTER_THRESHOLD_MS = 10 * 60 * 1000` of
`src/utils/heartbeatClustering.ts`. -/
def CLUSTER_THRESHOLD_MS : Int := 10 * 60 * 1000

/-- `clusterHeartbeats` of `src/utils/heartbeatClustering.ts`. -/
def clusterHeartbeats : List Heartbeat → List HeartbeatCluster :=
  clusterHeartbeatsWith CLUSTER_THRESHOLD_MS

end heartbeatClustering

/-- A heartbeat with every inessential field defaulted, for concrete
inputs. -/
def mkHb (t : Int) : Heartbeat :=
  { time := t, created_at := t, project := "", branch := "", category := "",
    editor := "", entity := "", language := "", machine := "",
    operating_system := "", type := "", user_agent := "",
    line_additions := none, line_deletions := none, lineno := 1, lines := 1,
    cursorpos := 0, project_root_count := 0, is_write := none,
    source_type := "", ip_address := "" }

example : (clusterHeartbeats []).length = 0 := by decide
example : (clusterHeartbeats [mkHb 0, mkHb 100000, mkHb 200000]).length = 1 := by decide
example : (clusterHeartbeats [mkHb 0, mkHb 1000000]).length = 2 := by decide
example : (heartbeatClustering.clusterHeartbeats [mkHb 0, mkHb 720000]).length = 2 := by decide
example : (clusterHeartbeats [mkHb 0, mkHb 720000]).length = 1 := by decide
example : ((clusterHeartbeats [mkHb 500, mkHb 0]).map
    (fun c => c.heartbeats.map (·.time))) = [[0, 500]] := by decide

/-! ## Sorting lemmas -/

lemma insertByTime_perm (x : Heartbeat) (l : List Heartbeat) :
    (insertByTime x l).Perm (x :: l) := by
  induction l with
  | nil => simp [insertByTime]
  | cons y ys ih =>
    by_cases h : x.time ≤ y.time
    · simp [insertByTime, h]
    · simpa [insertByTime, h] using ((ih.cons y).trans (List.Perm.swap x y ys))

lemma sortByTime_perm (l : List Heartbeat) : (sortByTime l).Perm l := by
  induction l with
  | nil => simp [sortByTime]
  | cons x xs ih =>
    exact ((insertByTime_perm x (sortByTime xs)).trans (ih.cons x))

lemma mem_insertByTime {a x : Heartbeat} {l : List Heartbeat}
    (h : a ∈ insertByTime x l) : a = x ∨ a ∈ l := by
  have := (insertByTime_perm x l).mem_iff.mp h
  simpa using this

lemma insertByTime_sorted {x : Heartbeat} {l : List Heartbeat}
    (h : l.Pairwise (fun a b => a.time ≤ b.time)) :
    (insertByTime x l).Pairwise (fun a b => a.time ≤ b.time) := by
  induction l with
  | nil => simp [insertByTime]
  | cons y ys ih =>
    rcases List.pairwise_cons.mp h with ⟨hy, hys⟩
    by_cases hxy : x.time ≤ y.time
    · rw [insertByTime, if_pos hxy]
      refine List.pairwise_cons.mpr ⟨?_, h⟩
      intro b hb
      rcases List.mem_cons.mp hb with rfl | hb
      · exact hxy
      · exact le_trans hxy (hy b hb)
    · rw [insertByTime, if_neg hxy]
      refine List.pairwise_cons.mpr ⟨?_, ih hys⟩
      intro b hb
      rcases mem_insertByTime hb with rfl | hb
      · exact le_of_not_le hxy
      · exact hy b hb

lemma sortByTime_sorted (l : List Heartbeat) :
    (sortByTime l).Pairwise (fun a b => a.time ≤ b.time) := by
  induction l with
  | nil => simp [sortByTime]
  | cons x xs ih => exact insertByTime_sorted ih

lemma sortByTime_of_sorted {l : List Heartbeat}
    (h : l.Pairwise (fun a b => a.time ≤ b.time)) : sortByTime l = l := by
  induction l with
  | nil => rfl
  | cons x xs ih =>
    rcases List.pairwise_cons.mp h with ⟨hx, hxs⟩
    have hrec : sortByTime (x :: xs) = insertByTime x (sortByTime xs) := rfl
    rw [hrec, ih hxs]
    cases xs with
    | nil => rfl
    | cons y ys => simp [insertByTime, hx y (by simp)]

lemma sortByTime_idem (l : List Heartbeat) :
    sortByTime (sortByTime l) = sortByTime l :=
  sortByTime_of_sorted (sortByTime_sorted l)

/-! ## Clustering structure lemmas -/

lemma closeCluster_flat (cs : List HeartbeatCluster) (cur : List Heartbeat) :
    (closeCluster cs cur).flatMap (·.heartbeats) =
      cs.flatMap (·.heartbeats) ++ cur := by
  cases cur with
  | nil => simp [closeCluster]
  | cons a l => simp [closeCluster]

lemma clusterLoop_flat (th : Int) :
    ∀ (rest : List Heartbeat) (cs : List HeartbeatCluster)
      (cur : List Heartbeat) (lt : Int),
      (clusterLoop th cs cur lt rest).flatMap (·.heartbeats) =
        cs.flatMap (·.heartbeats) ++ cur ++ rest := by
  intro rest
  induction rest with
  | nil => intro cs cur lt; simpa [clusterLoop] using closeCluster_flat cs cur
  | cons hb rest ih =>
    intro cs cur lt
    by_cases h : hb.time - lt ≤ th
    · simp [clusterLoop, h, ih]
    · simp [clusterLoop, h, ih, closeCluster_flat]

lemma clusterHeartbeatsWith_flat (th : Int) (l : List Heartbeat) :
    (clusterHeartbeatsWith th l).flatMap (·.heartbeats) = sortByTime l := by
  rcases hs : sortByTime l with _ | ⟨h, rest⟩
  · simp [clusterHeartbeatsWith, hs]
  · simp [clusterHeartbeatsWith, hs, clusterLoop_flat]

lemma clusterHeartbeatsWith_sort (th : Int) (l : List Heartbeat) :
    clusterHeartbeatsWith th (sortByTime l) = clusterHeartbeatsWith th l := by
  unfold clusterHeartbeatsWith
  rw [sortByTime_idem]

/-- The well-formed shape of every emitted cluster: non-empty heartbeat
run, `startTime` the first member's time, `endTime` the last member's. -/
def clusterShape (c : HeartbeatCluster) : Prop :=
  ∃ h t, c.heartbeats = h :: t ∧ c.startTime = h.time ∧
    c.endTime = (t.getLastD h).time

lemma closeCluster_shape {cs : List HeartbeatCluster} {cur : List Heartbeat}
    (hcs : ∀ c ∈ cs, clusterShape c) :
    ∀ c ∈ closeCluster cs cur, clusterShape c := by
  cases cur with
  | nil => simpa [closeCluster] using hcs
  | cons a l =>
    intro c hc
    rcases List.mem_append.mp hc with hc | hc
    · exact hcs c hc
    · rcases List.mem_singleton.mp hc with rfl
      exact ⟨a, l, rfl, rfl, rfl⟩

lemma clusterLoop_shape (th : Int) :
    ∀ (rest : List Heartbeat) (cs : List HeartbeatCluster)
      (cur : List Heartbeat) (lt : Int),
      (∀ c ∈ cs, clusterShape c) →
      ∀ c ∈ clusterLoop th cs cur lt rest, clusterShape c := by
  intro rest
  induction rest with
  | nil => intro cs cur lt hcs; exact closeCluster_shape hcs
  | cons hb rest ih =>
    intro cs cur lt hcs c hc
    by_cases h : hb.time - lt ≤ th
    · rw [clusterLoop, if_pos h] at hc
      exact ih cs (cur ++ [hb]) hb.time hcs c hc
    · rw [clusterLoop, if_neg h] at hc
      exact ih (closeCluster cs cur) [hb] hb.time (closeCluster_shape hcs) c hc

lemma clusterHeartbeatsWith_shape (th : Int) (l : List Heartbeat) :
    ∀ c ∈ clusterHeartbeatsWith th l, clusterShape c := by
  rcases hs : sortByTime l with _ | ⟨h, rest⟩
  · simp [clusterHeartbeatsWith, hs]
  · rw [clusterHeartbeatsWith, hs]
    exact clusterLoop_shape th rest [] [h] h.time (by simp)

/-- The boundary condition between two adjacent clusters: the gap from
the last heartbeat of the earlier to the first of the later exceeds the
threshold. -/
def boundaryGT (th : Int) (c d : HeartbeatCluster) : Prop :=
  ∀ a ∈ c.heartbeats.getLast?, ∀ b ∈ d.heartbeats.head?, th < b.time - a.time

lemma clusterLoop_gaps (th : Int) :
    ∀ (rest : List Heartbeat) (cs : List HeartbeatCluster)
      (cur : List Heartbeat) (lc : Heartbeat),
      List.Chain' (fun a b => b.time - a.time ≤ th) cur →
      cur.getLast? = some lc →
      (∀ c ∈ cs, List.Chain' (fun a b => b.time - a.time ≤ th) c.heartbeats) →
      List.Chain' (boundaryGT th) cs →
      (∀ cl ∈ cs.getLast?, ∀ a ∈ cl.heartbeats.getLast?,
        ∀ b ∈ cur.head?, th < b.time - a.time) →
      (∀ c ∈ clusterLoop th cs cur lc.time rest,
          List.Chain' (fun a b => b.time - a.time ≤ th) c.heartbeats) ∧
        List.Chain' (boundaryGT th) (clusterLoop th cs cur lc.time rest) := by
  intro rest
  induction rest with
  | nil =>
    intro cs cur lc hcur hlast hcs hbch hpend
    rcases cur with _ | ⟨first, curtail⟩
    · simp at hlast
    constructor
    · intro c hc
      rw [clusterLoop] at hc
      rcases List.mem_append.mp hc with hc | hc
      · exact hcs c hc
      · rcases List.mem_singleton.mp hc with rfl
        exact hcur
    · rw [clusterLoop]
      show List.Chain' (boundaryGT th) (cs ++ [_])
      refine List.chain'_append.mpr ⟨hbch, List.chain'_singleton _, ?_⟩
      intro x hx y hy
      rcases List.mem_singleton.mp (by simpa using hy) with rfl
      intro a ha b hb
      exact hpend x hx a ha b hb
  | cons hb rest ih =>
    intro cs cur lc hcur hlast hcs hbch hpend
    rcases cur with _ | ⟨first, curtail⟩
    · simp at hlast
    by_cases h : hb.time - lc.time ≤ th
    · rw [clusterLoop, if_pos h]
      refine ih cs ((first :: curtail) ++ [hb]) hb ?_ (List.getLast?_concat _)
        hcs hbch ?_
      · refine List.chain'_append.mpr ⟨hcur, List.chain'_singleton _, ?_⟩
        intro x hx y hy
        rcases List.mem_singleton.mp (by simpa using hy) with rfl
        rw [hlast] at hx
        obtain rfl : lc = x := by simpa using hx
        exact h
      · intro cl hcl a ha b hbmem
        rw [List.head?_append_of_ne_nil _ (by simp)] at hbmem
        exact hpend cl hcl a ha b hbmem
    · rw [clusterLoop, if_neg h]
      refine ih (closeCluster cs (first :: curtail)) [hb] hb
        (List.chain'_singleton _) (by simp) ?_ ?_ ?_
      · intro c hc
        rcases List.mem_append.mp hc with hc | hc
        · exact hcs c hc
        · rcases List.mem_singleton.mp hc with rfl
          exact hcur
      · refine List.chain'_append.mpr ⟨hbch, List.chain'_singleton _, ?_⟩
        intro x hx y hy
        rcases List.mem_singleton.mp (by simpa using hy) with rfl
        intro a ha b hbm
        exact hpend x hx a ha b hbm
      · intro cl hcl a ha b hbm
        rw [closeCluster, List.getLast?_concat] at hcl
        obtain rfl := Option.some_inj.mp (Option.mem_def.mp hcl)
        have ha' : a ∈ (first :: curtail).getLast? := ha
        rw [hlast] at ha'
        obtain rfl : lc = a := by simpa using ha'
        obtain rfl : hb = b := by simpa using hbm
        exact lt_of_not_ge fun hge => h (by omega)

lemma clusterHeartbeatsWith_gaps (th : Int) (l : List Heartbeat) :
    (∀ c ∈ clusterHeartbeatsWith th l,
        List.Chain' (fun a b => b.time - a.time ≤ th) c.heartbeats) ∧
      List.Chain' (boundaryGT th) (clusterHeartbeatsWith th l) := by
  rcases hs : sortByTime l with _ | ⟨h, rest⟩
  · simp [clusterHeartbeatsWith, hs]
  · rw [clusterHeartbeatsWith, hs]
    exact clusterLoop_gaps th rest [] [h] h (List.chain'_singleton _) rfl
      (by simp) List.chain'_nil (by simp)

lemma mem_flat_sublist :
    ∀ (cs : List HeartbeatCluster) (c : HeartbeatCluster), c ∈ cs →
      c.heartbeats.Sublist (cs.flatMap (·.heartbeats)) := by
  intro cs
  induction cs with
  | nil => simp
  | cons d ds ih =>
    intro c hc
    rcases List.mem_cons.mp hc with rfl | hc
    · simp only [List.flatMap_cons]
      exact List.sublist_append_left c.heartbeats (ds.flatMap (·.heartbeats))
    · refine (ih c hc).trans ?_
      simp only [List.flatMap_cons]
      exact List.sublist_append_right d.heartbeats (ds.flatMap (·.heartbeats))

lemma clusterHeartbeatsWith_member_sorted (th : Int) (l : List Heartbeat) :
    ∀ c ∈ clusterHeartbeatsWith th l,
      c.heartbeats.Pairwise (fun a b => a.time ≤ b.time) := by
  intro c hc
  have hsub := mem_flat_sublist _ c hc
  rw [clusterHeartbeatsWith_flat] at hsub
  exact (sortByTime_sorted l).sublist hsub

lemma chain'_startTime_of_boundaries {th : Int} (hth : 0 ≤ th) :
    ∀ (cs : List HeartbeatCluster),
      (∀ c ∈ cs, clusterShape c) →
      (∀ c ∈ cs, c.heartbeats.Pairwise (fun a b => a.time ≤ b.time)) →
      List.Chain' (boundaryGT th) cs →
      List.Chain' (fun c d => c.startTime ≤ d.startTime) cs := by
  intro cs
  induction cs with
  | nil => intro _ _ _; exact List.chain'_nil
  | cons c ds ih =>
    intro hshape hsorted hch
    cases ds with
    | nil => exact List.chain'_singleton _
    | cons d rest =>
      rcases List.chain'_cons.mp hch with ⟨hcd, htail⟩
      refine List.chain'_cons.mpr ⟨?_, ih (fun x hx => hshape x (by simp [hx]))
        (fun x hx => hsorted x (by simp [hx])) htail⟩
      rcases hshape c (by simp) with ⟨hc, tc, hceq, hcstart, _⟩
      rcases hshape d (by simp) with ⟨hd, td, hdeq, hdstart, _⟩
      have hlastc : c.heartbeats.getLast? = some (tc.getLastD hc) := by
        rw [hceq, List.getLast?_cons, List.getLastD_eq_getLast?]
      have hheadd : d.heartbeats.head? = some hd := by rw [hdeq]; rfl
      have hgap := hcd _ (by rw [hlastc]; rfl) _ (by rw [hheadd]; rfl)
      have hcle : hc.time ≤ (tc.getLastD hc).time := by
        have hmem : tc.getLastD hc ∈ hc :: tc := List.getLastD_mem_cons tc hc
        rcases List.mem_cons.mp hmem with heq | hmem
        · rw [heq]
        · have := hsorted c (by simp)
          rw [hceq] at this
          exact (List.pairwise_cons.mp this).1 _ hmem
      rw [hcstart, hdstart]
      omega

/-- C1 helper: the two gap invariants for the threshold-parameterised
clustering function, packaged at the threshold of
`src/services/hackatime.ts`. -/
theorem clusterHeartbeats_gap_invariant (l : List Heartbeat) :
    CLUSTER_THRESHOLD_MS = 900000 ∧
    (∀ c ∈ clusterHeartbeats l, c.heartbeats ≠ [] ∧
      List.Chain' (fun a b => b.time - a.time ≤ 900000) c.heartbeats) ∧
    List.Chain' (fun c d => ∀ a ∈ c.heartbeats.getLast?,
      ∀ b ∈ d.heartbeats.head?, (900000 : Int) < b.time - a.time)
      (clusterHeartbeats l) := by
  have hth : CLUSTER_THRESHOLD_MS = 900000 := by norm_num [CLUSTER_THRESHOLD_MS]
  have hgaps := clusterHeartbeatsWith_gaps CLUSTER_THRESHOLD_MS l
  refine ⟨hth, fun c hc => ⟨?_, ?_⟩, ?_⟩
  · rcases clusterHeartbeatsWith_shape CLUSTER_THRESHOLD_MS l c hc with ⟨h, t, heq, _, _⟩
    simp [heq]
  · have := hgaps.1 c hc
    rwa [hth] at this
  · have := hgaps.2
    rw [hth] at this
    exact this

lemma clusterHeartbeats_startTime_ordered (l : List Heartbeat) :
    (clusterHeartbeats l).Pairwise (fun c d => c.startTime ≤ d.startTime) := by
  haveI : IsTrans HeartbeatCluster (fun c d => c.startTime ≤ d.startTime) :=
    ⟨fun _ _ _ => le_trans⟩
  rw [← List.chain'_iff_pairwise]
  exact chain'_startTime_of_boundaries (by norm_num [CLUSTER_THRESHOLD_MS]) _
    (clusterHeartbeatsWith_shape CLUSTER_THRESHOLD_MS l)
    (clusterHeartbeatsWith_member_sorted CLUSTER_THRESHOLD_MS l)
    (clusterHeartbeatsWith_gaps CLUSTER_THRESHOLD_MS l).2

lemma clusterLoop_threshold_congr (th1 th2 : Int) :
    ∀ (rest : List Heartbeat) (cs : List HeartbeatCluster)
      (cur : List Heartbeat) (x : Heartbeat),
      List.Chain' (fun a b => b.time - a.time ≤ th1 ∧ b.time - a.time ≤ th2 ∨
        ¬b.time - a.time ≤ th1 ∧ ¬b.time - a.time ≤ th2) (x :: rest) →
      clusterLoop th1 cs cur x.time rest = clusterLoop th2 cs cur x.time rest := by
  intro rest
  induction rest with
  | nil => intro cs cur x _; rfl
  | cons hb rest ih =>
    intro cs cur x hch
    rcases List.chain'_cons.mp hch with ⟨hgap, htail⟩
    rcases hgap with ⟨h1, h2⟩ | ⟨h1, h2⟩
    · rw [clusterLoop, if_pos h1, clusterLoop, if_pos h2]
      exact ih cs (cur ++ [hb]) hb htail
    · rw [clusterLoop, if_neg h1, clusterLoop, if_neg h2]
      exact ih (closeCluster cs cur) [hb] hb htail

/-! ## Claim theorems about clustering -/

/-- C1: in every cluster produced by `clusterHeartbeats` of
`src/services/hackatime.ts`, any two time-adjacent heartbeats are at most
900000 ms (the 15-minute `CLUSTER_THRESHOLD_MS`) apart, and for any two
adjacent output clusters the gap from the last heartbeat of the earlier
cluster to the first heartbeat of the later strictly exceeds 900000 ms
(clusters are non-empty, so the boundary condition is never vacuous). -/
theorem C1_cluster_gap_invariant (l : List Heartbeat) :
    CLUSTER_THRESHOLD_MS = 900000 ∧
    (∀ c ∈ clusterHeartbeats l, c.heartbeats ≠ [] ∧
      List.Chain' (fun a b => b.time - a.time ≤ 900000) c.heartbeats) ∧
    List.Chain' (fun c d => ∀ a ∈ c.heartbeats.getLast?,
      ∀ b ∈ d.heartbeats.head?, (900000 : Int) < b.time - a.time)
      (clusterHeartbeats l) :=
  clusterHeartbeats_gap_invariant l

/-- C2: the concatenation of the heartbeats of all clusters returned by
`clusterHeartbeats` is exactly the input list stably sorted ascending by
`time` (a permutation of the input — nothing dropped or duplicated), the
concatenation is ascending, the clusters are ordered by ascending
`startTime`, and the empty input yields the empty cluster list. -/
theorem C2_cluster_partition (l : List Heartbeat) :
    (clusterHeartbeats l).flatMap (·.heartbeats) = sortByTime l ∧
    (sortByTime l).Perm l ∧
    ((clusterHeartbeats l).flatMap (·.heartbeats)).Pairwise
      (fun a b => a.time ≤ b.time) ∧
    (clusterHeartbeats l).Pairwise (fun c d => c.startTime ≤ d.startTime) ∧
    clusterHeartbeats [] = [] := by
  refine ⟨clusterHeartbeatsWith_flat _ l, sortByTime_perm l, ?_,
    clusterHeartbeats_startTime_ordered l, rfl⟩
  rw [show clusterHeartbeats = clusterHeartbeatsWith CLUSTER_THRESHOLD_MS from rfl,
    clusterHeartbeatsWith_flat]
  exact sortByTime_sorted l

/-- C9: clustering is idempotent — applying `clusterHeartbeats` to the
re-sorted concatenation of the heartbeats of an earlier
`clusterHeartbeats` result reproduces the first result exactly (same
partition into runs, hence the same cluster boundaries). -/
theorem C9_cluster_idempotent (l : List Heartbeat) :
    clusterHeartbeats
        (sortByTime ((clusterHeartbeats l).flatMap (·.heartbeats))) =
      clusterHeartbeats l := by
  rw [show clusterHeartbeats = clusterHeartbeatsWith CLUSTER_THRESHOLD_MS from rfl,
    clusterHeartbeatsWith_flat, sortByTime_idem, clusterHeartbeatsWith_sort]

/-- C10 counterexample: the two `clusterHeartbeats` implementations are
not extensionally equal.  Two heartbeats 720000 ms (12 min) apart fall in
two clusters under `src/utils/heartbeatClustering.ts` (10-minute
threshold) but in one cluster under `src/services/hackatime.ts`
(15-minute threshold). -/
theorem C10_counterexample :
    (heartbeatClustering.clusterHeartbeats [mkHb 0, mkHb 720000]).length = 2 ∧
    (clusterHeartbeats [mkHb 0, mkHb 720000]).length = 1 ∧
    heartbeatClustering.clusterHeartbeats [mkHb 0, mkHb 720000] ≠
      clusterHeartbeats [mkHb 0, mkHb 720000] := by
  refine ⟨by decide, by decide, fun h => ?_⟩
  have := congrArg List.length h
  rw [show (heartbeatClustering.clusterHeartbeats [mkHb 0, mkHb 720000]).length
      = 2 from by decide] at this
  rw [show (clusterHeartbeats [mkHb 0, mkHb 720000]).length = 1 from by decide]
    at this
  exact absurd this (by decide)

/-- C10 amended: the two `clusterHeartbeats` implementations differ only
in their idle-gap thresholds (600000 ms in
`src/utils/heartbeatClustering.ts` versus 900000 ms in
`src/services/hackatime.ts`); on every input whose consecutive
time-sorted gaps avoid the band (600000 ms, 900000 ms] the two return
identical cluster lists. -/
theorem C10_amended_threshold_equivalence (l : List Heartbeat)
    (h : List.Chain' (fun a b => b.time - a.time ≤ 600000 ∨
      (900000 : Int) < b.time - a.time) (sortByTime l)) :
    heartbeatClustering.clusterHeartbeats l = clusterHeartbeats l := by
  have hth1 : heartbeatClustering.CLUSTER_THRESHOLD_MS = 600000 := by
    norm_num [heartbeatClustering.CLUSTER_THRESHOLD_MS]
  have hth2 : CLUSTER_THRESHOLD_MS = 900000 := by norm_num [CLUSTER_THRESHOLD_MS]
  show clusterHeartbeatsWith _ _ = clusterHeartbeatsWith _ _
  rw [hth1, hth2]
  rcases hs : sortByTime l with _ | ⟨x, rest⟩
  · rw [clusterHeartbeatsWith, clusterHeartbeatsWith, hs]
  · rw [clusterHeartbeatsWith, clusterHeartbeatsWith, hs]
    refine clusterLoop_threshold_congr 600000 900000 rest [] [x] x ?_
    rw [hs] at h
    exact h.imp (fun {a b} hab => by
      rcases hab with hab | hab
      · exact Or.inl ⟨hab, by omega⟩
      · exact Or.inr ⟨by omega, by omega⟩)

/-- C10 amended, witness: on a concrete input whose single gap (1000 ms)
is below both thresholds the two implementations agree. -/
theorem C10_amended_witness :
    heartbeatClustering.clusterHeartbeats [mkHb 0, mkHb 1000] =
      clusterHeartbeats [mkHb 0, mkHb 1000] := by
  apply C10_amended_threshold_equivalence
  rw [show sortByTime [mkHb 0, mkHb 1000] = [mkHb 0, mkHb 1000] from by decide]
  refine List.chain'_cons.mpr ⟨Or.inl ?_, List.chain'_singleton _⟩
  norm_num [mkHb]

/-! ## Path reconstruction (`src/components/ui/CodeView.tsx`) -/

/-- `normalizePath`: split an entity path on both slash kinds and drop
empty segments (`.filter(Boolean)`). -/
def normalizePath (path : String) : List String :=
  (jsSplit (fun c => c = '/' ∨ c = '\\') path).filter (fun s => s ≠ "")

/-- `dir.split("/")` as used on the keys of the directory-count map. -/
def jsSplitSlash (s : String) : List String := jsSplit (fun c => c = '/') s

/-- `dirCounts.set(dir, (dirCounts.get(dir) || 0) + 1)` on a JS `Map`
modelled as an insertion-ordered association list (JS `Map` iterates in
insertion order). -/
def bumpCount : List (String × Nat) → String → List (String × Nat)
  | [], k => [(k, 1)]
  | (k', c) :: rest, k =>
    if k' = k then (k', c + 1) :: rest else (k', c) :: bumpCount rest k

/-- The inner loop of `findProjectRoot`: tally every directory ancestor
(`parts.slice(0, i).join("/")` for `1 ≤ i ≤ parts.length - 1`) of one
normalized entity path. -/
def addDirTallies (m : List (String × Nat)) (parts : List String) :
    List (String × Nat) :=
  (List.range (parts.length - 1)).foldl
    (fun m i => bumpCount m (joinSlash (parts.take (i + 1)))) m

/-- The full `dirCounts` map built from all normalized entity paths. -/
def dirCounts (allParts : List (List String)) : List (String × Nat) :=
  allParts.foldl addDirTallies []

/-- One step of the best-root scan of `findProjectRoot`: skip entries
with fewer than 2 occurrences, otherwise keep the strictly best
`count * depth` score (ties keep the earlier entry). -/
def selectStep (best : Nat × List String) (dc : String × Nat) :
    Nat × List String :=
  if dc.2 < 2 then best
  else
    let parts := jsSplitSlash dc.1
    let score := dc.2 * parts.length
    if best.1 < score then (score, parts) else best

/-- The best-root scan over the directory-count map. -/
def selectBest (m : List (String × Nat)) : Nat × List String :=
  m.foldl selectStep (0, [])

/-- `findProjectRoot` of `src/components/ui/CodeView.tsx`. -/
def findProjectRoot (entities : List String) : List String :=
  match entities with
  | [] => []
  | [e] => (normalizePath e).dropLast
  | e1 :: e2 :: es =>
    let allParts := (e1 :: e2 :: es).map normalizePath
    let best := selectBest (dirCounts allParts)
    if best.2 = [] then
      let first := normalizePath e1
      first.take (max 1 (first.length - 1))
    else best.2

/-- The `matchLen` loop of `getRelativePath`: the length of the longest
leading run of segments matching the root case-insensitively (the loop
breaks at the first mismatch). -/
def matchLen : List String → List String → Nat
  | p :: ps, r :: rs =>
    if jsToLower p = jsToLower r then matchLen ps rs + 1 else 0
  | _, _ => 0

/-- `getRelativePath` of `src/components/ui/CodeView.tsx`.  The result is
an `Option`: `none` models the JS `undefined` produced by
`parts[parts.length - 1]` when `parts` is empty. -/
def getRelativePath (entity : String) (root : List String) : Option String :=
  let parts := normalizePath entity
  let relativeParts := parts.drop (matchLen parts root)
  if relativeParts.length > 0 then some (joinSlash relativeParts)
  else parts.getLast?

example : findProjectRoot ["src/a/b.ts", "src/a/c.ts", "src/d.ts"] = ["src", "a"] := by decide
example : getRelativePath "src/a/b.ts" ["src", "a"] = some "b.ts" := by decide

/-! ## Code window rendering (`CodeView` render path) -/

/-- `CONTEXT_LINES = 10`. -/
def CONTEXT_LINES : Int := 10

/-- `Array.prototype.slice`/`String.prototype.slice` index semantics:
negative indices count from the end, then both are clamped to the
bounds, and an empty slice results when `end ≤ start`. -/
def jsSliceList {α : Type} (l : List α) (b e : Int) : List α :=
  let len : Int := l.length
  let s := if b < 0 then max (len + b) 0 else min b len
  let ed := if e < 0 then max (len + e) 0 else min e len
  (l.take ed.toNat).drop s.toNat

/-- `s.slice(b, e)` on strings. -/
def jsSliceStr (s : String) (b e : Int) : String := ⟨jsSliceList s.data b e⟩

/-- `s[i]` JS string indexing (`none` is `undefined`). -/
def jsCharAt (s : String) (i : Int) : Option Char :=
  if i < 0 then none else s.data.get? i.toNat

/-- The text content of one rendered code line: either the plain line
(no character marked) or a line split around a single marked cursor
character. -/
inductive RenderedContent
  | plain (text : String)
  | cursor (before marked after : String)
deriving DecidableEq

/-- One rendered line of the code window. -/
structure RenderedLine where
  lineNum : Int
  highlighted : Bool
  content : RenderedContent
deriving DecidableEq

/-- The pure rendering of the `CodeView` code window: the line window
`[max(1, lineno - 10), min(lineCount, lineno + 10)]`, the
`lineNum === targetLine` highlight, and the
`isHighlighted && currentHeartbeat?.cursorpos` cursor-marking branch
(JS truthiness: the cursor branch is taken only when `cursorpos` is a
truthy number, i.e. non-zero).  The marked character is
`line[cursorpos] || " "` and the plain branch renders `line || " "`. -/
def renderCodeWindow (fileContent : String) (ohb : Option Heartbeat) :
    List RenderedLine :=
  let lines := jsSplit (fun c => c = '\n') fileContent
  let targetLine : Int :=
    match ohb with
    | none => 1
    | some hb => if hb.lineno = 0 then 1 else hb.lineno
  let startLine : Int := max 1 (targetLine - CONTEXT_LINES)
  let endLine : Int := min (lines.length : Int) (targetLine + CONTEXT_LINES)
  let visibleLines := jsSliceList lines (startLine - 1) endLine
  visibleLines.enum.map fun p =>
    let lineNum : Int := startLine + p.1
    let isHighlighted : Bool := lineNum == targetLine
    let line := p.2
    match ohb with
    | some hb =>
      if isHighlighted && hb.cursorpos != 0 then
        { lineNum := lineNum, highlighted := isHighlighted,
          content := .cursor (jsSliceStr line 0 hb.cursorpos)
            (match jsCharAt line hb.cursorpos with
              | some ch => String.singleton ch
              | none => " ")
            (jsSliceStr line (hb.cursorpos + 1) (line.length : Int)) }
      else
        { lineNum := lineNum, highlighted := isHighlighted,
          content := .plain (if line = "" then " " else line) }
    | none =>
      { lineNum := lineNum, highlighted := isHighlighted,
        content := .plain (if line = "" then " " else line) }

example : renderCodeWindow "abc"
    (some { mkHb 0 with lineno := 1, cursorpos := 1 }) =
    [{ lineNum := 1, highlighted := true, content := .cursor "a" "b" "c" }] := by
  decide

/-- C7: the cursor-marking clause fails at `cursorpos = 0`.  For a
heartbeat at line 1 with cursor offset 0 over the file `"abc"`, the
claim (and the spec's rendering contract) requires the character `'a'`
at offset 0 to be marked, but `isHighlighted && currentHeartbeat?.cursorpos`
is falsy for the number 0, so the highlighted line renders plain with no
marked character — while the same heartbeat with `cursorpos = 1` does
get its character marked, isolating 0 as the broken case. -/
theorem C7_cursorpos_zero_divergence :
    renderCodeWindow "abc" (some { mkHb 0 with lineno := 1, cursorpos := 0 }) =
      [{ lineNum := 1, highlighted := true, content := .plain "abc" }] ∧
    (∀ r ∈ renderCodeWindow "abc"
        (some { mkHb 0 with lineno := 1, cursorpos := 0 }),
      ∀ b m a, r.content ≠ RenderedContent.cursor b m a) ∧
    renderCodeWindow "abc" (some { mkHb 0 with lineno := 1, cursorpos := 1 }) =
      [{ lineNum := 1, highlighted := true,
         content := .cursor "a" "b" "c" }] := by
  refine ⟨by decide, ?_, by decide⟩
  intro r hr b m a
  rw [show renderCodeWindow "abc" (some { mkHb 0 with lineno := 1, cursorpos := 0 })
      = [{ lineNum := 1, highlighted := true, content := .plain "abc" }] from by decide] at hr
  rcases List.mem_singleton.mp hr with rfl
  simp

/-! ## Relative path characterization (C5) -/

lemma matchLen_le (p r : List String) : matchLen p r ≤ min p.length r.length := by
  induction p generalizing r with
  | nil => simp [matchLen]
  | cons x xs ih =>
    cases r with
    | nil => simp [matchLen]
    | cons y ys =>
      rw [matchLen]
      by_cases h : jsToLower x = jsToLower y
      · rw [if_pos h]
        have := ih ys
        simp only [List.length_cons]
        omega
      · rw [if_neg h]
        omega

lemma matchLen_matches (p r : List String) :
    ∀ i < matchLen p r,
      (p.get? i).map jsToLower = (r.get? i).map jsToLower := by
  induction p generalizing r with
  | nil => simp [matchLen]
  | cons x xs ih =>
    cases r with
    | nil => simp [matchLen]
    | cons y ys =>
      intro i hi
      rw [matchLen] at hi
      by_cases h : jsToLower x = jsToLower y
      · rw [if_pos h] at hi
        cases i with
        | zero => simpa using h
        | succ j =>
          have := ih ys j (by omega)
          simpa using this
      · rw [if_neg h] at hi
        omega

lemma matchLen_stops (p r : List String)
    (h : matchLen p r < min p.length r.length) :
    (p.get? (matchLen p r)).map jsToLower ≠
      (r.get? (matchLen p r)).map jsToLower := by
  induction p generalizing r with
  | nil => simp [matchLen] at h
  | cons x xs ih =>
    cases r with
    | nil => simp [matchLen] at h
    | cons y ys =>
      by_cases heq : jsToLower x = jsToLower y
      · rw [matchLen, if_pos heq] at h ⊢
        have := ih ys (by simp only [List.length_cons] at h; omega)
        simpa using this
      · rw [matchLen, if_neg heq]
        simpa using heq

/-- C5: `relativePath` is the entity's segments after removing the
longest leading run of segments that case-insensitively match the root's
segments positionally (matching stops at the first mismatch); when the
removal leaves no segments the result falls back to the entity path's
last segment (its filename). -/
theorem C5_relativePath (entity : String) (root : List String)
    (hne : normalizePath entity ≠ []) :
    matchLen (normalizePath entity) root ≤
        min (normalizePath entity).length root.length ∧
    (∀ i < matchLen (normalizePath entity) root,
      ((normalizePath entity).get? i).map jsToLower =
        (root.get? i).map jsToLower) ∧
    (matchLen (normalizePath entity) root <
        min (normalizePath entity).length root.length →
      ((normalizePath entity).get? (matchLen (normalizePath entity) root)).map
          jsToLower ≠
        (root.get? (matchLen (normalizePath entity) root)).map jsToLower) ∧
    getRelativePath entity root =
      (if _h : (normalizePath entity).drop
          (matchLen (normalizePath entity) root) ≠ [] then
        some (joinSlash ((normalizePath entity).drop
          (matchLen (normalizePath entity) root)))
      else some ((normalizePath entity).getLast hne)) := by
  refine ⟨matchLen_le _ _, matchLen_matches _ _, matchLen_stops _ _, ?_⟩
  rw [getRelativePath]
  by_cases h : (normalizePath entity).drop
      (matchLen (normalizePath entity) root) ≠ []
  · rw [dif_pos h, if_pos (by simpa [List.length_pos] using h)]
  · rw [dif_neg h, if_neg (by simpa [List.length_pos] using h),
      List.getLast?_eq_getLast _ hne]

/-- C5 witness: for root `["src", "a"]` and entity `src/a/b.ts` the
relative path is `b.ts`. -/
theorem C5_relativePath_witness :
    normalizePath "src/a/b.ts" ≠ [] ∧
    getRelativePath "src/a/b.ts" ["src", "a"] = some "b.ts" := by
  have hne : normalizePath "src/a/b.ts" ≠ [] := by decide
  refine ⟨hne, ?_⟩
  rw [(C5_relativePath "src/a/b.ts" ["src", "a"] hne).2.2.2,
    dif_pos (by decide : (normalizePath "src/a/b.ts").drop
      (matchLen (normalizePath "src/a/b.ts") ["src", "a"]) ≠ [])]
  decide

/-! ## Root inference characterization (C4) -/

/-- The `count * depth` score of one directory-count entry. -/
def entryScore (dc : String × Nat) : Nat := dc.2 * (jsSplitSlash dc.1).length

lemma splitChars_ne_nil (p : Char → Bool) (l : List Char) :
    splitChars p l ≠ [] := by
  cases l with
  | nil => simp [splitChars]
  | cons c cs =>
    rw [splitChars]
    rcases h : splitChars p cs with _ | ⟨w, ws⟩
    · simp
    · by_cases hp : p c <;> simp [hp]

lemma jsSplitSlash_ne_nil (s : String) : jsSplitSlash s ≠ [] := by
  rw [jsSplitSlash, jsSplit]
  simpa using splitChars_ne_nil _ s.data

lemma selectFold_spec :
    ∀ (m : List (String × Nat)) (acc : Nat × List String),
      (m.foldl selectStep acc = acc ∧
        ∀ dc ∈ m, 2 ≤ dc.2 → entryScore dc ≤ acc.1) ∨
      (∃ m1 dc m2, m = m1 ++ dc :: m2 ∧ 2 ≤ dc.2 ∧ acc.1 < entryScore dc ∧
        m.foldl selectStep acc = (entryScore dc, jsSplitSlash dc.1) ∧
        (∀ dc' ∈ m1, 2 ≤ dc'.2 → entryScore dc' < entryScore dc) ∧
        (∀ dc' ∈ m, 2 ≤ dc'.2 → entryScore dc' ≤ entryScore dc)) := by
  intro m
  induction m with
  | nil => intro acc; exact Or.inl ⟨rfl, by simp⟩
  | cons dc0 m ih =>
    intro acc
    by_cases he : dc0.2 < 2
    · have hstep : selectStep acc dc0 = acc := by rw [selectStep, if_pos he]
      have hfold : (dc0 :: m).foldl selectStep acc = m.foldl selectStep acc := by
        rw [List.foldl_cons, hstep]
      rcases ih acc with ⟨heq, hle⟩ | ⟨m1, dcc, m2, hm, helig, hacc, hres, hfirst, hall⟩
      · refine Or.inl ⟨by rw [hfold, heq], ?_⟩
        intro dc' hdc' h2
        rcases List.mem_cons.mp hdc' with rfl | hdc'
        · omega
        · exact hle dc' hdc' h2
      · refine Or.inr ⟨dc0 :: m1, dcc, m2, by simp [hm], helig, hacc,
          by rw [hfold, hres], ?_, ?_⟩
        · intro dc' hdc' h2
          rcases List.mem_cons.mp hdc' with rfl | hdc'
          · omega
          · exact hfirst dc' hdc' h2
        · intro dc' hdc' h2
          rcases List.mem_cons.mp hdc' with rfl | hdc'
          · omega
          · exact hall dc' hdc' h2
    · have he' : 2 ≤ dc0.2 := by omega
      by_cases hs : acc.1 < entryScore dc0
      · have hstep : selectStep acc dc0 = (entryScore dc0, jsSplitSlash dc0.1) := by
          rw [selectStep, if_neg he]
          exact if_pos hs
        have hfold : (dc0 :: m).foldl selectStep acc =
            m.foldl selectStep (entryScore dc0, jsSplitSlash dc0.1) := by
          rw [List.foldl_cons, hstep]
        rcases ih (entryScore dc0, jsSplitSlash dc0.1) with
          ⟨heq, hle⟩ | ⟨m1, dcc, m2, hm, helig, hacc, hres, hfirst, hall⟩
        · refine Or.inr ⟨[], dc0, m, rfl, he', hs, by rw [hfold, heq], by simp, ?_⟩
          intro dc' hdc' h2
          rcases List.mem_cons.mp hdc' with rfl | hdc'
          · exact le_refl _
          · exact hle dc' hdc' h2
        · refine Or.inr ⟨dc0 :: m1, dcc, m2, by simp [hm], helig,
            lt_trans hs hacc, by rw [hfold, hres], ?_, ?_⟩
          · intro dc' hdc' h2
            rcases List.mem_cons.mp hdc' with rfl | hdc'
            · exact hacc
            · exact hfirst dc' hdc' h2
          · intro dc' hdc' h2
            rcases List.mem_cons.mp hdc' with rfl | hdc'
            · exact le_of_lt hacc
            · exact hall dc' hdc' h2
      · have hstep : selectStep acc dc0 = acc := by
          rw [selectStep, if_neg he]
          exact if_neg hs
        have hfold : (dc0 :: m).foldl selectStep acc = m.foldl selectStep acc := by
          rw [List.foldl_cons, hstep]
        rcases ih acc with ⟨heq, hle⟩ | ⟨m1, dcc, m2, hm, helig, hacc, hres, hfirst, hall⟩
        · refine Or.inl ⟨by rw [hfold, heq], ?_⟩
          intro dc' hdc' h2
          rcases List.mem_cons.mp hdc' with rfl | hdc'
          · exact not_lt.mp hs
          · exact hle dc' hdc' h2
        · refine Or.inr ⟨dc0 :: m1, dcc, m2, by simp [hm], helig, hacc,
            by rw [hfold, hres], ?_, ?_⟩
          · intro dc' hdc' h2
            rcases List.mem_cons.mp hdc' with rfl | hdc'
            · exact lt_of_le_of_lt (not_lt.mp hs) hacc
            · exact hfirst dc' hdc' h2
          · intro dc' hdc' h2
            rcases List.mem_cons.mp hdc' with rfl | hdc'
            · exact le_trans (not_lt.mp hs) (le_of_lt hacc)
            · exact hall dc' hdc' h2

/-- C4 counterexample: two deviations of `findProjectRoot` from the
claim.  (1) Fallback: for `["a.ts", "b.ts"]` the directory-count map is
empty (no eligible ancestor at all), yet the function returns
`["a.ts"]` — `Math.max(1, ...)` keeps at least one segment — while the
claim's "first entity's path with its final segment dropped" is `[]`.
(2) Distinctness: for `["a/b/f.ts", "a/b/f.ts", "a/c/g.ts"]` the
function returns `["a", "b"]`, although the input has only the two
distinct paths `a/b/f.ts` and `a/c/g.ts` and the ancestor `a/b` occurs
in just one of them (`a/c/g.ts` does not start with `["a", "b"]`), so
under the claim's "at least 2 distinct entity paths" rule only `a`
(`≠ a/b`) would be eligible: occurrences are counted per list element,
not per distinct path. -/
theorem C4_counterexample :
    (dirCounts (["a.ts", "b.ts"].map normalizePath) = [] ∧
      findProjectRoot ["a.ts", "b.ts"] = ["a.ts"] ∧
      (normalizePath "a.ts").dropLast = [] ∧ (["a.ts"] : List String) ≠ []) ∧
    (findProjectRoot ["a/b/f.ts", "a/b/f.ts", "a/c/g.ts"] = ["a", "b"] ∧
      (∀ e ∈ ["a/b/f.ts", "a/b/f.ts", "a/c/g.ts"],
        e = "a/b/f.ts" ∨ e = "a/c/g.ts") ∧
      (normalizePath "a/c/g.ts").take 2 ≠ ["a", "b"] ∧
      (["a", "b"] : List String) ≠ ["a"]) := by
  decide

/-- C4 amended: `findProjectRoot` returns the directory ancestor
maximizing `occurrenceCount × depth` among map entries whose occurrence
count — counted per entity-list element, duplicates included — is at
least 2, ties broken by the entry visited first in the scan; when no
eligible entry exists (and there are at least two entities) it falls
back to the first entity's path with its final segment dropped but
keeping at least one segment; a single-entity input returns that path
with its final segment dropped, and the empty input yields the empty
root.  The claim's concrete example stands: `src/a` beats `src`. -/
theorem C4_amended_root_inference :
    findProjectRoot ["src/a/b.ts", "src/a/c.ts", "src/d.ts"] = ["src", "a"] ∧
    (∀ e1 e2 es,
      ((∀ dc ∈ dirCounts ((e1 :: e2 :: es).map normalizePath), dc.2 < 2) ∧
        findProjectRoot (e1 :: e2 :: es) =
          (normalizePath e1).take (max 1 ((normalizePath e1).length - 1))) ∨
      (∃ m1 dc m2,
        dirCounts ((e1 :: e2 :: es).map normalizePath) = m1 ++ dc :: m2 ∧
        2 ≤ dc.2 ∧
        findProjectRoot (e1 :: e2 :: es) = jsSplitSlash dc.1 ∧
        (∀ dc' ∈ m1, 2 ≤ dc'.2 → entryScore dc' < entryScore dc) ∧
        (∀ dc' ∈ dirCounts ((e1 :: e2 :: es).map normalizePath),
          2 ≤ dc'.2 → entryScore dc' ≤ entryScore dc))) ∧
    (∀ e, findProjectRoot [e] = (normalizePath e).dropLast) ∧
    findProjectRoot ([] : List String) = [] := by
  refine ⟨by decide, ?_, fun e => rfl, rfl⟩
  intro e1 e2 es
  rcases selectFold_spec (dirCounts ((e1 :: e2 :: es).map normalizePath)) (0, [])
    with ⟨heq, hle⟩ | ⟨m1, dcc, m2, hm, helig, hacc, hres, hfirst, hall⟩
  · refine Or.inl ⟨?_, ?_⟩
    · intro dc hdc
      by_contra h2
      have h2' : 2 ≤ dc.2 := by omega
      have hscore := hle dc hdc h2'
      have hlen : 1 ≤ (jsSplitSlash dc.1).length :=
        List.length_pos.mpr (jsSplitSlash_ne_nil dc.1)
      have : 2 ≤ entryScore dc := by
        calc 2 = 2 * 1 := by norm_num
        _ ≤ dc.2 * (jsSplitSlash dc.1).length := Nat.mul_le_mul h2' hlen
        _ = entryScore dc := rfl
      omega
    · show (if (selectBest (dirCounts ((e1 :: e2 :: es).map normalizePath))).2
          = ([] : List String) then _ else _) = _
      rw [show selectBest (dirCounts ((e1 :: e2 :: es).map normalizePath))
          = ((0 : Nat), ([] : List String)) from heq]
      rfl
  · refine Or.inr ⟨m1, dcc, m2, hm, helig, ?_, hfirst, hall⟩
    show (if (selectBest (dirCounts ((e1 :: e2 :: es).map normalizePath))).2
        = ([] : List String) then _ else _) = _
    rw [show selectBest (dirCounts ((e1 :: e2 :: es).map normalizePath))
        = (entryScore dcc, jsSplitSlash dcc.1) from hres]
    rw [if_neg (jsSplitSlash_ne_nil dcc.1)]

/-- C4 amended, witness: the claim's concrete root-inference example,
obtained by applying the amended theorem. -/
theorem C4_amended_witness :
    findProjectRoot ["src/a/b.ts", "src/a/c.ts", "src/d.ts"] = ["src", "a"] :=
  C4_amended_root_inference.1

/-! ## Aggregation (`src/hooks/useHeartbeatData.ts`)

Only the submission fields read by the aggregate-hours computation and
the hour-sync action (`authorEmail`, `approved`, `hackatimeProjectKeys`,
all non-optional strings/booleans in `src/types/submission.ts`) are
carried; the service project entry likewise carries the two fields the
computations read (`name`, `total_duration` in seconds). -/

structure YswsSubmission where
  authorEmail : String
  approved : Bool
  hackatimeProjectKeys : String
deriving DecidableEq

structure HackatimeProject where
  name : String
  total_duration : ℚ
deriving DecidableEq

/-- `sub.hackatimeProjectKeys?.split(/[,;]/).map(x => x.toLowerCase().trim())`. -/
def parseKeys (s : String) : List String :=
  (jsSplit (fun c => c = ',' ∨ c = ';') s).map fun x => jsTrim (jsToLower x)

/-- `allSubmissions?.filter(s => s.authorEmail?.toLowerCase() ===
selectedSubmission.authorEmail?.toLowerCase() && s.approved) ??
(selectedSubmission.approved ? [selectedSubmission] : [])`: the author's
submissions relevant to the aggregate.  The `??` fallback fires exactly
when the sibling list is absent. -/
def authorSubmissions (allSubmissions : Option (List YswsSubmission))
    (sel : YswsSubmission) : List YswsSubmission :=
  match allSubmissions with
  | some subs =>
    subs.filter fun s =>
      jsToLower s.authorEmail == jsToLower sel.authorEmail && s.approved
  | none => if sel.approved then [sel] else []

/-- `if (key) allAuthorProjectKeys.add(key)`: insert a truthy (non-empty)
key into the insertion-ordered set. -/
def addKey (acc : List String) (k : String) : List String :=
  if k = "" then acc else if k ∈ acc then acc else acc ++ [k]

/-- The `allAuthorProjectKeys` set accumulated over the author's relevant
submissions. -/
def allAuthorProjectKeys (subs : List YswsSubmission) : List String :=
  subs.foldl (fun acc sub => (parseKeys sub.hackatimeProjectKeys).foldl addKey acc) []

/-- `allProjects.projects.filter(x => allAuthorProjectKeys.has(x.name.toLowerCase()))`. -/
def aggregateProjects (projects : List HackatimeProject) (keys : List String) :
    List HackatimeProject :=
  projects.filter fun p => keys.contains (jsToLower p.name)

/-- `aggregateProjects.reduce((sum, p) => sum + p.total_duration, 0)`. -/
def sumDurations (ps : List HackatimeProject) : ℚ :=
  ps.foldl (fun sum p => sum + p.total_duration) 0

/-- `setAggregatedProjectHours(totalSeconds / 3600)`: the advisory
aggregate shown to the reviewer, in hours. -/
def aggregatedProjectHours (allSubmissions : Option (List YswsSubmission))
    (sel : YswsSubmission) (projects : List HackatimeProject) : ℚ :=
  sumDurations (aggregateProjects projects
    (allAuthorProjectKeys (authorSubmissions allSubmissions sel))) / 3600

/-! ## Hour-sync (`src/hooks/useSubmissionActions.ts`) -/

/-- `Math.round` on exact rationals (round half toward positive
infinity, as JS). -/
def jsRound (q : ℚ) : Int := ⌊q + 1 / 2⌋

/-- `Math.round(x * 10) / 10`: round to one decimal. -/
def roundToTenth (q : ℚ) : ℚ := (jsRound (q * 10) : ℚ) / 10

/-- `userProjects.projects.find(p => p.name.toLowerCase().includes(key.toLowerCase())
|| key.toLowerCase().includes(p.name.toLowerCase()))`: first service
project matching a declared key under bidirectional case-insensitive
substring containment. -/
def findMatchingProject (projects : List HackatimeProject) (projectKey : String) :
    Option HackatimeProject :=
  projects.find? fun p =>
    jsIncludes (jsToLower p.name) (jsToLower projectKey) ||
    jsIncludes (jsToLower projectKey) (jsToLower p.name)

/-- `submission.hackatimeProjectKeys.split(",").map(key => key.trim())`. -/
def parsedSyncKeys (sub : YswsSubmission) : List String :=
  (jsSplit (fun c => c = ',') sub.hackatimeProjectKeys).map jsTrim

/-- The `for (const projectKey of projectKeys)` loop: accumulate
`totalSeconds` and the `matchedProjects` entries (key plus per-project
hours rounded to one decimal). -/
def syncScan (projects : List HackatimeProject) (keys : List String) :
    ℚ × List (String × ℚ) :=
  keys.foldl
    (fun acc key =>
      match findMatchingProject projects key with
      | none => acc
      | some p =>
        (acc.1 + p.total_duration,
          acc.2 ++ [(key, roundToTenth (p.total_duration / 3600))]))
    (0, [])

/-- The justification passed to `onUpdate`, as structured data: the
source builds either the single-project string
`"H hours, verified with Hackatime."` or the multi-project string
`"H1 + H2 + ... = T hours, verified with Hackatime."`; the template text
is abstracted, keeping exactly the numbers it interpolates. -/
inductive SyncJustification
  | single (hours : ℚ)
  | multi (hoursList : List ℚ) (total : ℚ)
deriving DecidableEq

/-- The `matchedProjects.length === 1` branch of the justification. -/
def mkJustification (matched : List (String × ℚ)) (roundedHours : ℚ) :
    SyncJustification :=
  match matched with
  | [entry] => .single entry.2
  | _ => .multi (matched.map Prod.snd) roundedHours

/-- `handleSyncFromHackatime`, with the network steps as parameters: the
admin key (JS-falsy when absent or empty), the user id returned by
`findIdByEmail` (`!userId` is truthy for `null` and `0`), and the
service project list returned by `getUserProjects`.  Returns the
`(hours, justification)` pair passed to `onUpdate`, or `none` when
`onUpdate` is never invoked. -/
def handleSyncFromHackatime (hackatimeAdminKey : Option String)
    (userId : Option Int) (sub : YswsSubmission)
    (projects : List HackatimeProject) : Option (ℚ × SyncJustification) :=
  let keyFalsy := match hackatimeAdminKey with | none => true | some k => k = ""
  if keyFalsy || sub.hackatimeProjectKeys = "" then none
  else
    let userFalsy := match userId with | none => true | some uid => uid = 0
    if userFalsy then none
    else
      let scanned := syncScan projects (parsedSyncKeys sub)
      let totalHours := scanned.1 / 3600
      if 0 < totalHours then
        some (roundToTenth totalHours,
          mkJustification scanned.2 (roundToTenth totalHours))
      else none

/-- Concrete submissions and service projects for counterexamples and
witnesses. -/
def subUnapprovedFoo : YswsSubmission :=
  { authorEmail := "a@b.com", approved := false, hackatimeProjectKeys := "foo" }

def subApprovedFoo : YswsSubmission :=
  { authorEmail := "a@b.com", approved := true, hackatimeProjectKeys := "Foo" }

def projFoo : HackatimeProject := { name := "Foo", total_duration := 3600 }

/-! ## Key-set lemmas (C3, C6) -/

lemma mem_addKey (acc : List String) (k k' : String) :
    k' ∈ addKey acc k ↔ k' ∈ acc ∨ (k' = k ∧ k ≠ "") := by
  rw [addKey]
  by_cases h0 : k = ""
  · simp [h0]
  · rw [if_neg h0]
    by_cases hmem : k ∈ acc
    · rw [if_pos hmem]
      exact ⟨fun h => Or.inl h,
        fun h => h.elim id (fun hh => hh.1 ▸ hmem)⟩
    · rw [if_neg hmem]
      simp [List.mem_append, h0]

lemma mem_foldl_addKey (ks : List String) :
    ∀ (acc : List String) (k : String),
      k ∈ ks.foldl addKey acc ↔ k ∈ acc ∨ (k ∈ ks ∧ k ≠ "") := by
  induction ks with
  | nil => simp
  | cons k0 ks ih =>
    intro acc k
    rw [List.foldl_cons, ih, mem_addKey]
    constructor
    · rintro ((h | ⟨rfl, hne⟩) | ⟨hk, hne⟩)
      · exact Or.inl h
      · exact Or.inr ⟨by simp, hne⟩
      · exact Or.inr ⟨by simp [hk], hne⟩
    · rintro (h | ⟨hk, hne⟩)
      · exact Or.inl (Or.inl h)
      · rcases List.mem_cons.mp hk with rfl | hk
        · exact Or.inl (Or.inr ⟨rfl, hne⟩)
        · exact Or.inr ⟨hk, hne⟩

lemma mem_allAuthorProjectKeys (subs : List YswsSubmission) (k : String) :
    k ∈ allAuthorProjectKeys subs ↔
      k ≠ "" ∧ ∃ s ∈ subs, k ∈ parseKeys s.hackatimeProjectKeys := by
  suffices h : ∀ acc,
      k ∈ subs.foldl
          (fun acc sub => (parseKeys sub.hackatimeProjectKeys).foldl addKey acc)
          acc ↔
        k ∈ acc ∨ (k ≠ "" ∧ ∃ s ∈ subs, k ∈ parseKeys s.hackatimeProjectKeys) by
    simpa [allAuthorProjectKeys] using h []
  induction subs with
  | nil => simp
  | cons s0 ss ih =>
    intro acc
    rw [List.foldl_cons, ih, mem_foldl_addKey]
    constructor
    · rintro ((h | ⟨hk, hne⟩) | ⟨hne, s, hs, hk⟩)
      · exact Or.inl h
      · exact Or.inr ⟨hne, s0, by simp, hk⟩
      · exact Or.inr ⟨hne, s, by simp [hs], hk⟩
    · rintro (h | ⟨hne, s, hs, hk⟩)
      · exact Or.inl (Or.inl h)
      · rcases List.mem_cons.mp hs with rfl | hs
        · exact Or.inl (Or.inr ⟨hk, hne⟩)
        · exact Or.inr ⟨hne, s, hs, hk⟩

lemma foldl_addKey_noop :
    ∀ (ks acc : List String), (∀ k ∈ ks, k = "" ∨ k ∈ acc) →
      ks.foldl addKey acc = acc := by
  intro ks
  induction ks with
  | nil => intro acc _; rfl
  | cons k0 ks ih =>
    intro acc h
    have h0 : addKey acc k0 = acc := by
      rcases h k0 (by simp) with h0 | h0
      · rw [addKey, if_pos h0]
      · rw [addKey]
        by_cases he : k0 = ""
        · rw [if_pos he]
        · rw [if_neg he, if_pos h0]
    rw [List.foldl_cons, h0]
    exact ih acc (fun k hk => h k (by simp [hk]))

lemma allAuthorProjectKeys_pair (s1 s2 : YswsSubmission)
    (h : parseKeys s2.hackatimeProjectKeys = parseKeys s1.hackatimeProjectKeys) :
    allAuthorProjectKeys [s1, s2] = allAuthorProjectKeys [s1] := by
  rw [allAuthorProjectKeys, allAuthorProjectKeys, List.foldl_cons,
    List.foldl_cons, List.foldl_nil, List.foldl_cons, List.foldl_nil]
  apply foldl_addKey_noop
  intro k hk
  rw [h] at hk
  by_cases hne : k = ""
  · exact Or.inl hne
  · exact Or.inr ((mem_foldl_addKey _ _ _).mpr (Or.inr ⟨hk, hne⟩))

/-- C3 counterexample: with the sibling-submission list absent and the
viewed submission unapproved, the fallback yields the empty relevant-
submission list — not the viewed submission — so an unapproved viewed
submission contributes nothing: the aggregate over a service project
`Foo` with 3600 recorded seconds is 0 hours, not the 1 hour the claim's
fallback would produce. -/
theorem C3_counterexample :
    authorSubmissions none subUnapprovedFoo = [] ∧
    ([] : List YswsSubmission) ≠ [subUnapprovedFoo] ∧
    aggregatedProjectHours none subUnapprovedFoo [projFoo] = 0 ∧
    projFoo.total_duration / 3600 = 1 ∧ (0 : ℚ) ≠ 1 := by
  refine ⟨rfl, by simp, ?_, by norm_num [projFoo], by norm_num⟩
  norm_num [aggregatedProjectHours, authorSubmissions, subUnapprovedFoo,
    allAuthorProjectKeys, aggregateProjects, sumDurations, List.filter]

/-- C3 amended: every submission contributing to the relevant set is
approved; with a sibling list present the relevant set is its approved
same-author submissions and the relevant project keys are exactly the
union of their non-empty declared keys; with the sibling list absent the
fallback treats the viewed submission alone as relevant precisely when
it is approved (an unapproved viewed submission contributes nothing). -/
theorem C3_amended_relevant_projects (oSubs : Option (List YswsSubmission))
    (sel : YswsSubmission) :
    (∀ s ∈ authorSubmissions oSubs sel, s.approved = true) ∧
    (∀ subs, oSubs = some subs → authorSubmissions oSubs sel =
      subs.filter fun s =>
        jsToLower s.authorEmail == jsToLower sel.authorEmail && s.approved) ∧
    (oSubs = none → authorSubmissions oSubs sel =
      if sel.approved then [sel] else []) ∧
    (∀ k, k ∈ allAuthorProjectKeys (authorSubmissions oSubs sel) ↔
      k ≠ "" ∧ ∃ s ∈ authorSubmissions oSubs sel,
        k ∈ parseKeys s.hackatimeProjectKeys) := by
  refine ⟨?_, ?_, ?_, fun k => mem_allAuthorProjectKeys _ k⟩
  · intro s hs
    cases oSubs with
    | some subs =>
      have h2 := (List.mem_filter.mp hs).2
      rw [Bool.and_eq_true] at h2
      exact h2.2
    | none =>
      by_cases ha : sel.approved
      · rw [authorSubmissions, if_pos ha] at hs
        rcases List.mem_singleton.mp hs with rfl
        exact ha
      · rw [authorSubmissions, if_neg ha] at hs
        simp at hs
  · intro subs h
    subst h
    rfl
  · intro h
    subst h
    rfl

/-- C3 amended, witness: an approved viewed submission with the sibling
list absent is its own single relevant submission. -/
theorem C3_amended_witness :
    authorSubmissions none subApprovedFoo = [subApprovedFoo] :=
  ((C3_amended_relevant_projects none subApprovedFoo).2.2.1 rfl).trans rfl

/-- C6: a project referenced by two of the author's approved submissions
contributes its service-reported duration exactly once — the aggregate
over both submissions equals the aggregate over one of them when they
declare the same keys — and the aggregate equals the sum of the
durations of the service projects whose lower-cased name is in the
de-duplicated key set, divided by 3600. -/
theorem C6_aggregate_dedup (sel s1 s2 : YswsSubmission)
    (projects : List HackatimeProject)
    (he1 : jsToLower s1.authorEmail = jsToLower sel.authorEmail)
    (he2 : jsToLower s2.authorEmail = jsToLower sel.authorEmail)
    (ha1 : s1.approved = true) (ha2 : s2.approved = true)
    (hk : s1.hackatimeProjectKeys = s2.hackatimeProjectKeys) :
    aggregatedProjectHours (some [s1, s2]) sel projects =
      aggregatedProjectHours (some [s1]) sel projects ∧
    aggregatedProjectHours (some [s1]) sel projects =
      sumDurations (projects.filter fun p =>
        (allAuthorProjectKeys [s1]).contains (jsToLower p.name)) / 3600 := by
  have hfil2 : authorSubmissions (some [s1, s2]) sel = [s1, s2] := by
    simp [authorSubmissions, List.filter_cons, he1, he2, ha1, ha2]
  have hfil1 : authorSubmissions (some [s1]) sel = [s1] := by
    simp [authorSubmissions, List.filter_cons, he1, ha1]
  constructor
  · rw [aggregatedProjectHours, aggregatedProjectHours, hfil2, hfil1,
      allAuthorProjectKeys_pair s1 s2 (by rw [hk])]
  · rw [aggregatedProjectHours, hfil1]
    rfl

/-- C6 witness: two approved submissions both declaring project `Foo`
(3600 recorded seconds) aggregate to exactly 1 hour, not 2. -/
theorem C6_aggregate_dedup_witness :
    aggregatedProjectHours (some [subApprovedFoo, subApprovedFoo])
        subApprovedFoo [projFoo] =
      aggregatedProjectHours (some [subApprovedFoo]) subApprovedFoo [projFoo] ∧
    aggregatedProjectHours (some [subApprovedFoo]) subApprovedFoo [projFoo] = 1 := by
  constructor
  · exact (C6_aggregate_dedup subApprovedFoo subApprovedFoo subApprovedFoo
      [projFoo] rfl rfl rfl rfl rfl).1
  · have hagg : aggregateProjects [projFoo]
        (allAuthorProjectKeys
          (authorSubmissions (some [subApprovedFoo]) subApprovedFoo)) =
        [projFoo] := by decide
    rw [aggregatedProjectHours, hagg]
    norm_num [sumDurations, projFoo]

/-! ## Hour-sync lemmas (C8) -/

lemma syncScan_fst (projects : List HackatimeProject) (keys : List String) :
    (syncScan projects keys).1 =
      (keys.map fun k =>
        match findMatchingProject projects k with
        | some p => p.total_duration
        | none => 0).sum := by
  suffices h : ∀ acc : ℚ × List (String × ℚ),
      (keys.foldl
        (fun acc key =>
          match findMatchingProject projects key with
          | none => acc
          | some p =>
            (acc.1 + p.total_duration,
              acc.2 ++ [(key, roundToTenth (p.total_duration / 3600))]))
        acc).1 =
        acc.1 + (keys.map fun k =>
          match findMatchingProject projects k with
          | some p => p.total_duration
          | none => 0).sum by
    simpa [syncScan] using h (0, [])
  induction keys with
  | nil => intro acc; simp
  | cons k ks ih =>
    intro acc
    rw [List.foldl_cons, List.map_cons, List.sum_cons]
    cases hf : findMatchingProject projects k with
    | none =>
      simp only [hf]
      rw [ih acc]
      ring
    | some p =>
      simp only [hf]
      rw [ih ((acc.1 + p.total_duration,
        acc.2 ++ [(k, roundToTenth (p.total_duration / 3600))]))]
      show acc.1 + p.total_duration + _ = acc.1 + (p.total_duration + _)
      ring

/-- C8: when none of the submission's declared keys matches any service
project under bidirectional case-insensitive substring containment, the
hour-sync performs no update (`onUpdate` never invoked, no
justification produced); whenever an update is produced its hour value
is the sum of the per-key matched durations divided by 3600 and rounded
to one decimal; and the scanned total is exactly that per-key sum. -/
theorem C8_sync_zero_match (key : Option String) (userId : Option Int)
    (sub : YswsSubmission) (projects : List HackatimeProject) :
    ((∀ k ∈ parsedSyncKeys sub, findMatchingProject projects k = none) →
      handleSyncFromHackatime key userId sub projects = none) ∧
    (∀ h j, handleSyncFromHackatime key userId sub projects = some (h, j) →
      h = roundToTenth ((syncScan projects (parsedSyncKeys sub)).1 / 3600)) ∧
    (syncScan projects (parsedSyncKeys sub)).1 =
      ((parsedSyncKeys sub).map fun k =>
        match findMatchingProject projects k with
        | some p => p.total_duration
        | none => 0).sum := by
  refine ⟨?_, ?_, syncScan_fst _ _⟩
  · intro hnone
    have h0 : (syncScan projects (parsedSyncKeys sub)).1 = 0 := by
      rw [syncScan_fst]
      apply List.sum_eq_zero
      intro x hx
      rcases List.mem_map.mp hx with ⟨k, hk, rfl⟩
      rw [hnone k hk]
    simp only [handleSyncFromHackatime, h0]
    split
    · rfl
    · split
      · rfl
      · rw [if_neg (by norm_num)]
  · intro h j hsome
    simp only [handleSyncFromHackatime] at hsome
    split at hsome
    · exact absurd hsome (by simp)
    · split at hsome
      · exact absurd hsome (by simp)
      · split at hsome
        · have hpair := Option.some_inj.mp hsome
          have h1 := congrArg Prod.fst hpair
          exact h1.symm
        · exact absurd hsome (by simp)

/-- A submission whose single declared key matches no service project. -/
def subZzz : YswsSubmission :=
  { authorEmail := "a@b.com", approved := true, hackatimeProjectKeys := "zzz" }

/-- C8 witness: a declared key `zzz` matches no service project named
`Foo` in either containment direction, so the sync is a silent no-op. -/
theorem C8_sync_zero_match_witness :
    handleSyncFromHackatime (some "hka_x") (some 1) subZzz [projFoo] = none :=
  (C8_sync_zero_match (some "hka_x") (some 1) subZzz [projFoo]).1 (by decide)
